import Mathlib

/-!
Verification of the pipeline orchestrator (`pipeline_orchestrator.py`).

The Python source is shallowly embedded below.  External effects are made
explicit parameters:
* the shell (`run_command` / `subprocess.call`) becomes a function
  `runner : String → Int` from the command string to its exit status;
* the filesystem becomes explicit data: the transformation log is an
  `Option (List String)` (`none` = file absent), the staging source tree a
  list of entries (relative directory, file name), and `shutil.which` an
  `Option String`;
* `sys.exit n` / normal return become the `exitCode` field of the run
  outcome, and printing the final metrics dictionary becomes the
  `printedMetrics` field.

Phase executors additionally return the list of commands they invoked, so
that "sub-task k+1 is never invoked" is observable in the model.
-/

namespace PipelineOrch

/-! ## Character classes (Python `re` classes `\w`, `\s`, `[^|]`) -/

/-- Python `\w` (ASCII range relevant to this program): letters, digits, underscore. -/
def isPyWord (c : Char) : Bool := c.isAlphanum || c == '_'

/-- Python `\s`: space, tab, newline, carriage return, vertical tab, form feed. -/
def isPySpace (c : Char) : Bool :=
  c == ' ' || c == '\t' || c == '\n' || c == '\r' || c == '\x0b' || c == '\x0c'

/-- The character class `[^|]`. -/
def nonPipe (c : Char) : Bool := c != '|'

/-! ## Backtracking matcher for the success pattern

`_identify_successful_artifacts` applies
`re.compile(r"\|\s*([^|]+\.\w+)\s*\|\s*0\s*\|").search` to every line.
The fixed pattern is embedded as an explicit backtracking matcher with
Python's semantics: leftmost starting position wins, greedy quantifiers
backtrack longest-first.  `starSplits`/`plusSplits` enumerate the ways a
greedy `C*` / `C+` over a one-character class `C` can split the input,
longest consumption first, exactly the order the `re` engine explores. -/

/-- All splits `(consumed, rest)` of a greedy star over class `f`,
longest consumption first. -/
def starSplits (f : Char → Bool) : List Char → List (List Char × List Char)
  | [] => [([], [])]
  | c :: t =>
    if f c then ((starSplits f t).map (fun p => (c :: p.1, p.2))) ++ [([], c :: t)]
    else [([], c :: t)]

/-- All splits of a greedy plus over class `f`, longest first. -/
def plusSplits (f : Char → Bool) : List Char → List (List Char × List Char)
  | [] => []
  | c :: t =>
    if f c then (starSplits f t).map (fun p => (c :: p.1, p.2))
    else []

/-- The deterministic tail `\s*\|\s*0\s*\|` of the pattern (its literals are
never whitespace, so greedy maximal munch is equivalent to backtracking). -/
def tailAfterGroup (cs : List Char) : Bool :=
  match cs.dropWhile isPySpace with
  | [] => false
  | c :: r =>
    if c = '|' then
      match r.dropWhile isPySpace with
      | [] => false
      | c2 :: r2 =>
        if c2 = '0' then
          match r2.dropWhile isPySpace with
          | [] => false
          | c3 :: _ => c3 = '|'
        else false
    else false

/-- Given a split `(pre, rest)` chosen for the leading `[^|]+`, try to finish
the group with `\.\w+` (the `\w+` maximal: word characters are neither
whitespace nor `|`, so shrinking it can never help) and then the tail.
Returns the captured group `pre ++ "." ++ word-run` on success. -/
def groupCand (p : List Char × List Char) : Option (List Char) :=
  match p.2 with
  | [] => none
  | c :: r =>
    if c = '.' then
      let w := r.takeWhile isPyWord
      if w = [] then none
      else if tailAfterGroup (r.dropWhile isPyWord) then some (p.1 ++ c :: w) else none
    else none

/-- Match `([^|]+\.\w+)\s*\|\s*0\s*\|` at the start of `cs`, returning the
captured group. -/
def groupAt (cs : List Char) : Option (List Char) :=
  (plusSplits nonPipe cs).findSome? groupCand

/-- Match `\s*([^|]+\.\w+)\s*\|\s*0\s*\|` at the start of `cs` (the part of
the pattern after the opening `\|`). -/
def afterPipe (cs : List Char) : Option (List Char) :=
  (starSplits isPySpace cs).findSome? (fun p => groupAt p.2)

/-- Match the whole pattern anchored at the start of `cs`. -/
def matchAt : List Char → Option (List Char)
  | [] => none
  | c :: rest => if c = '|' then afterPipe rest else none

/-- `re.search`: try every start position, leftmost first. -/
def searchZeroError : List Char → Option (List Char)
  | [] => none
  | c :: t =>
    match matchAt (c :: t) with
    | some g => some g
    | none => searchZeroError t

/-! ## Artifact Selector (`_identify_successful_artifacts`) -/

/-- `_identify_successful_artifacts`: if the transformation log is absent
(`none`) return `[]`; otherwise collect `match.group(1)` of every line the
pattern matches, in file order. -/
def identify_successful_artifacts (log : Option (List String)) : List String :=
  match log with
  | none => []
  | some lines => lines.filterMap (fun l => (searchZeroError l.data).map String.mk)

/-! ## Artifact Stager (`_copy_artifacts`) -/

/-- One file in the walked source tree: its directory path relative to
`work/transformed` and its file name. -/
structure FSEntry where
  relDir : List String
  name : String
deriving DecidableEq, Repr

/-- Index of the last `.` in a character list (`rfind`-style). -/
def findLastDot : List Char → Option Nat
  | [] => none
  | c :: t =>
    match findLastDot t with
    | some i => some (i + 1)
    | none => if c = '.' then some 0 else none

/-- `os.path.splitext(s)[0]` on a bare file name: drop from the last dot,
unless every character before that dot is itself a dot (e.g. `.bashrc`). -/
def splitextStem (s : List Char) : List Char :=
  match findLastDot s with
  | none => s
  | some i => if (s.take i).any (fun c => c ≠ '.') then s.take i else s

/-- `os.path.basename`: the part after the last `/`. -/
def basenameAux : List Char → List Char → List Char
  | [], acc => acc.reverse
  | c :: t, acc => if c = '/' then basenameAux t [] else basenameAux t (c :: acc)

def pyBasename (s : List Char) : List Char := basenameAux s []

def lowerL (s : List Char) : List Char := s.map Char.toLower

/-- Key computed for a selected artifact name:
`os.path.splitext(os.path.basename(x))[0].lower()`. -/
def artifactKey (x : String) : List Char := lowerL (splitextStem (pyBasename x.data))

/-- Key computed for a walked file: `os.path.splitext(file)[0].lower()`. -/
def fileKey (name : String) : List Char := lowerL (splitextStem name.data)

/-- The files `_copy_artifacts` copies: those whose case-folded,
extension-stripped name is among the selected artifacts' keys.  Each is
copied to the same relative path under `target/artifacts`. -/
def stagedEntries (successful : List String) (tree : List FSEntry) : List FSEntry :=
  let keys := successful.map artifactKey
  tree.filter (fun e => keys.contains (fileKey e.name))

/-- `_copy_artifacts` returns the number of files copied. -/
def copy_artifacts (successful : List String) (tree : List FSEntry) : Nat :=
  (stagedEntries successful tree).length

/-! ## Metrics Calculator (`_calculate_metrics`) -/

/-- Is `pat` a prefix of `s`? -/
def startsWithL : List Char → List Char → Bool
  | [], _ => true
  | _ :: _, [] => false
  | p :: ps, c :: cs => p == c && startsWithL ps cs

/-- Python substring containment `pat in s`. -/
def hasSub (pat : List Char) : List Char → Bool
  | [] => pat.isEmpty
  | c :: t => startsWithL pat (c :: t) || hasSub pat t

/-- The counting condition of `_calculate_metrics`:
`'|' in line and any(ext in line for ext in ['.src', '.dat', '.cfg'])`. -/
def countsAsArtifact (line : String) : Bool :=
  line.data.contains '|' &&
    (hasSub ".src".data line.data || hasSub ".dat".data line.data ||
      hasSub ".cfg".data line.data)

/-- `total_artifacts` as counted by `_calculate_metrics` from the same log. -/
def total_artifacts_count (log : Option (List String)) : Nat :=
  match log with
  | none => 0
  | some lines => (lines.filter countsAsArtifact).length

/-- The metrics dictionary.  Python float arithmetic is modelled exactly by
rationals; every concrete value the claims mention (`0.0`, `80.0`, `60.0`)
is exactly representable in both. -/
structure Metrics where
  total_artifacts : Nat
  successful_transforms : Nat
  copied_artifacts : Nat
  transform_success_rate : ℚ
  build_success_rate : ℚ
deriving DecidableEq, Repr

/-- `_calculate_metrics`: the rate divisions are guarded by
`if total_artifacts else 0`, so a division is only ever evaluated with a
nonzero divisor. -/
def calculate_metrics (successful : List String) (copied_count : Nat)
    (log : Option (List String)) : Metrics :=
  let total := total_artifacts_count log
  { total_artifacts := total
    successful_transforms := successful.length
    copied_artifacts := copied_count
    transform_success_rate :=
      if total ≠ 0 then (successful.length : ℚ) / (total : ℚ) * 100 else 0
    build_success_rate :=
      if total ≠ 0 then (copied_count : ℚ) / (total : ℚ) * 100 else 0 }

/-! ## Build Invoker (`_execute_build`) -/

/-- The fail-fast clean/build/install loop.  Returns the success flag and
the commands actually invoked. -/
def runBuildSteps (exec : String) (runner : String → Int) : List String → Bool × List String
  | [] => (true, [])
  | t :: ts =>
    let cmd := exec ++ " " ++ t
    if runner cmd = 0 then
      let r := runBuildSteps exec runner ts
      (r.1, cmd :: r.2)
    else (false, [cmd])

def buildTargets : List String := ["clean", "build", "install"]

/-- `_execute_build`: `which` is the result of `shutil.which(build_tool)`.
When the tool is absent the build is skipped: no step is invoked and the
function returns `False` (the pipeline later reports this as a warning). -/
def execute_build (which : Option String) (runner : String → Int) : Bool × List String :=
  match which with
  | none => (false, [])
  | some e => runBuildSteps e runner buildTargets

/-- `build_phase`: select artifacts from the log, stage them, run the build
tool, and compute metrics from the same log. -/
def build_phase (log : Option (List String)) (tree : List FSEntry)
    (which : Option String) (brunner : String → Int) : Bool × Metrics :=
  let successful := identify_successful_artifacts log
  let copied := copy_artifacts successful tree
  let b := execute_build which brunner
  (b.1, calculate_metrics successful copied log)

/-! ## Phase Executors (`extract_phase`, `validate_phase`, `analyze_phase`,
`transform_phase`) -/

/-- Result of a phase executor: overall success, the sub-task descriptors
appended to `execution_summary`, and the commands passed to `run_command`
in invocation order. -/
structure PhaseResult where
  ok : Bool
  recorded : List String
  invoked : List String
deriving DecidableEq, Repr

/-- The shared control skeleton of the four phase executors: run sub-tasks
strictly in order, stop at the first nonzero exit status, record a sub-task
only after its runner invocation returned zero. -/
def runPhase (runner : String → Int) (cmdOf : α → String) (recOf : α → String) :
    List α → PhaseResult
  | [] => ⟨true, [], []⟩
  | x :: xs =>
    if runner (cmdOf x) = 0 then
      let r := runPhase runner cmdOf recOf xs
      ⟨r.ok, recOf x :: r.recorded, cmdOf x :: r.invoked⟩
    else ⟨false, [], [cmdOf x]⟩

def extractCmd (t : String) : String := "python tools/pipeline/extract-" ++ t ++ ".py"
def validateCmd (t : String) : String := "python tools/pipeline/validate-" ++ t ++ ".py"
def analyzeCmd (t : String) : String := "python tools/pipeline/analyze-" ++ t ++ ".py"
def transformCmd (p : String × String) : String :=
  "python tools/pipeline/transform-" ++ p.1 ++ "-to-" ++ p.2 ++ ".py"
def transformDesc (p : String × String) : String := p.1 ++ " → " ++ p.2

def extract_phase (runner : String → Int) (ts : List String) : PhaseResult :=
  runPhase runner extractCmd id ts
def validate_phase (runner : String → Int) (ts : List String) : PhaseResult :=
  runPhase runner validateCmd id ts
def analyze_phase (runner : String → Int) (ts : List String) : PhaseResult :=
  runPhase runner analyzeCmd id ts
def transform_phase (runner : String → Int) (ps : List (String × String)) : PhaseResult :=
  runPhase runner transformCmd transformDesc ps

/-! ## `main` -/

inductive Mode
  | analysisOnly    -- menu choice 1
  | transformBuild  -- menu choice 2
  | fullPipeline    -- menu choice 3
deriving DecidableEq, Repr

inductive Phase
  | extract | validate | analyze | transform | build
deriving DecidableEq, Repr

/-- The inputs of one run: whether the entered project directory exists,
whether a `KeyboardInterrupt` is delivered (modelled as arriving at the
start of the `try` block), the selected mode, and the external world the
phases see. -/
structure RunConfig where
  dirExists : Bool
  interrupted : Bool
  mode : Mode
  runner : String → Int
  whichBuildTool : Option String
  buildRunner : String → Int
  log : Option (List String)
  tree : List FSEntry

/-- Observable outcome of a run: the phases entered in order, the process
exit status, the metrics report printed (if any), and the build phase
result (if the build phase ran). -/
structure RunOutcome where
  trace : List Phase
  exitCode : Nat
  printedMetrics : Option Metrics
  buildResult : Option Bool
deriving DecidableEq, Repr

def fileTypes : List String := ["source-files", "config-files", "data-files", "metadata"]
def validateTypes : List String := ["source-files", "config-files", "data-files"]
def analysisTypes : List String := ["dependencies", "patterns", "metrics", "quality"]
def transformations : List (String × String) :=
  [("source-files", "target-format"), ("config-files", "target-config"),
   ("data-files", "target-schema")]

/-- The transform-and-build tail of `main`: transform (exit 1 on failure),
then the build phase, then print the metrics and return normally (exit 0)
whatever the build result was. -/
def transformBuildBlock (cfg : RunConfig) (pre : List Phase) : RunOutcome :=
  let t := transform_phase cfg.runner transformations
  if t.ok then
    let bp := build_phase cfg.log cfg.tree cfg.whichBuildTool cfg.buildRunner
    ⟨pre ++ [Phase.transform, Phase.build], 0, some bp.2, some bp.1⟩
  else ⟨pre ++ [Phase.transform], 1, none, none⟩

/-- `main` after the interactive prompts: directory check, then the
mode-dependent workflow.  Mode 1 and 3 run extract/validate/analyze first;
mode 1 stops there; mode 2 runs extract/validate and then jumps straight to
transform/build, never entering the analyze phase. -/
def main (cfg : RunConfig) : RunOutcome :=
  if cfg.dirExists then
    if cfg.interrupted then ⟨[], 1, none, none⟩
    else
      if cfg.mode = Mode.analysisOnly ∨ cfg.mode = Mode.fullPipeline then
        let e := extract_phase cfg.runner fileTypes
        if e.ok then
          let v := validate_phase cfg.runner validateTypes
          if v.ok then
            let a := analyze_phase cfg.runner analysisTypes
            if a.ok then
              if cfg.mode = Mode.analysisOnly then
                ⟨[Phase.extract, Phase.validate, Phase.analyze], 0, none, none⟩
              else
                transformBuildBlock cfg [Phase.extract, Phase.validate, Phase.analyze]
            else ⟨[Phase.extract, Phase.validate, Phase.analyze], 1, none, none⟩
          else ⟨[Phase.extract, Phase.validate], 1, none, none⟩
        else ⟨[Phase.extract], 1, none, none⟩
      else
        let e := extract_phase cfg.runner fileTypes
        if e.ok then
          let v := validate_phase cfg.runner validateTypes
          if v.ok then transformBuildBlock cfg [Phase.extract, Phase.validate]
          else ⟨[Phase.extract, Phase.validate], 1, none, none⟩
        else ⟨[Phase.extract], 1, none, none⟩
  else ⟨[], 1, none, none⟩

/-! ## Spec-side definitions used to state the amended claims -/

/-- The order of phases each mode attempts (the code's actual control flow;
the spec's state machine omits the transform-and-build mode). -/
def specPhaseOrder : Mode → List Phase
  | Mode.analysisOnly => [Phase.extract, Phase.validate, Phase.analyze]
  | Mode.transformBuild => [Phase.extract, Phase.validate, Phase.transform, Phase.build]
  | Mode.fullPipeline =>
      [Phase.extract, Phase.validate, Phase.analyze, Phase.transform, Phase.build]

/-- Whether a given phase succeeds under a run configuration. -/
def phaseOk (cfg : RunConfig) : Phase → Bool
  | Phase.extract => (extract_phase cfg.runner fileTypes).ok
  | Phase.validate => (validate_phase cfg.runner validateTypes).ok
  | Phase.analyze => (analyze_phase cfg.runner analysisTypes).ok
  | Phase.transform => (transform_phase cfg.runner transformations).ok
  | Phase.build => (build_phase cfg.log cfg.tree cfg.whichBuildTool cfg.buildRunner).1

/-- `Modelled from the spec`: the fail-fast trace — enter phases in order,
include a failing phase but stop right after it. -/
def takeThroughFailure (ok : Phase → Bool) : List Phase → List Phase
  | [] => []
  | p :: ps => if ok p then p :: takeThroughFailure ok ps else [p]

/-! ## Concrete inputs used by witnesses and counterexamples -/

/-- A stub runner that fails exactly on the `config-files` extraction. -/
def runnerW : String → Int := fun c => if c = extractCmd "config-files" then 1 else 0

/-- A log of ten qualifying records, none selected. -/
def logTen : List String := List.replicate 10 "| x.dat | 1 |"

def sEight : List String := ["a1", "a2", "a3", "a4", "a5", "a6", "a7", "a8"]

def treeC6 : List FSEntry := [⟨["sub"], "A.DAT"⟩, ⟨["sub"], "other.cfg"⟩]

/-- A log whose first record is selected by the pattern but not counted by
the total-artifact scan. -/
def logMix : List String := ["| report.xml | 0 |", "| a.dat | 0 |"]

/-- The spec example lines, which lack the leading pipe the pattern needs. -/
def specLinesNoPipe : List String := ["a.dat | 0 |", "b.dat | 2 |", "c.cfg | 0 |"]

/-- A mode-2 run in which every sub-task succeeds. -/
def cfgModeTwo : RunConfig :=
  ⟨true, false, Mode.transformBuild, fun _ => 0, none, fun _ => 0, none, []⟩

/-- A full-pipeline run in which every sub-task succeeds, the build tool is
found, and its first build step fails. -/
def cfgBuildFail : RunConfig :=
  ⟨true, false, Mode.fullPipeline, fun _ => 0, some "ant", fun _ => 1, none, []⟩

/-- A full-pipeline run with an unresolvable build tool. -/
def cfgNoTool : RunConfig :=
  ⟨true, false, Mode.fullPipeline, fun _ => 0, none, fun _ => 0,
   some ["| a.dat | 0 |"], [⟨[], "a.dat"⟩]⟩

/-- A full-pipeline run with no transformation log. -/
def cfgNoLog : RunConfig :=
  ⟨true, false, Mode.fullPipeline, fun _ => 0, none, fun _ => 0, none,
   [⟨["sub"], "x.dat"⟩]⟩

/-- The spec-side success condition for the non-build phases of a mode. -/
def nonBuildPhasesOk (cfg : RunConfig) : Prop :=
  ∀ p ∈ specPhaseOrder cfg.mode, p ≠ Phase.build → phaseOk cfg p = true

/-! ## Canonical log records

To state the general part of the selector claim we describe one well-formed
pipe-delimited record `"| " ++ stem ++ "." ++ ext ++ " | " ++ err ++ " |"`
and prove what the matcher does on it. -/

/-- The characters following the artifact-name field: `" | " ++ err ++ " |"`. -/
def recTail (err : List Char) : List Char := ' ' :: '|' :: ' ' :: (err ++ [' ', '|'])

/-- The full record line, as characters. -/
def renderRec (stem ext err : List Char) : List Char :=
  '|' :: ' ' :: (stem ++ '.' :: (ext ++ recTail err))

/-- One record of the transformation log: an artifact name `stem.ext` and an
error-count field `err`. -/
structure LogRec where
  stem : List Char
  ext : List Char
  err : List Char
deriving DecidableEq, Repr

/-- Well-formedness of a record: name made of word characters (nonempty stem
and extension), error field made of digits. -/
def recWF (r : LogRec) : Prop :=
  r.stem ≠ [] ∧ (∀ c ∈ r.stem, isPyWord c = true) ∧ r.ext ≠ [] ∧
    (∀ c ∈ r.ext, isPyWord c = true) ∧ (∀ c ∈ r.err, c.isDigit = true)

instance (r : LogRec) : Decidable (recWF r) := by unfold recWF; infer_instance

def renderLine (r : LogRec) : String := ⟨renderRec r.stem r.ext r.err⟩

/-- The records of the amended spec example. -/
def recsW : List LogRec :=
  [⟨['a'], ['d', 'a', 't'], ['0']⟩, ⟨['b'], ['d', 'a', 't'], ['2']⟩,
   ⟨['c'], ['c', 'f', 'g'], ['0']⟩]

/-! ## Phase executor lemmas -/

lemma runPhase_fail (runner : String → Int) (cmdOf recOf : α → String)
    (pre : List α) (x : α) (post : List α)
    (hpre : ∀ y ∈ pre, runner (cmdOf y) = 0) (hx : runner (cmdOf x) ≠ 0) :
    runPhase runner cmdOf recOf (pre ++ x :: post) =
      ⟨false, pre.map recOf, (pre ++ [x]).map cmdOf⟩ := by
  induction pre with
  | nil => simp [runPhase, hx]
  | cons a t ih =>
    have ha : runner (cmdOf a) = 0 := hpre a (List.mem_cons_self a t)
    have ih2 := ih (fun y hy => hpre y (List.mem_cons_of_mem a hy))
    simp [runPhase, ha, ih2]

lemma runPhase_ok (runner : String → Int) (cmdOf recOf : α → String)
    (ts : List α) (hall : ∀ y ∈ ts, runner (cmdOf y) = 0) :
    runPhase runner cmdOf recOf ts = ⟨true, ts.map recOf, ts.map cmdOf⟩ := by
  induction ts with
  | nil => rfl
  | cons a t ih =>
    have ha : runner (cmdOf a) = 0 := hall a (List.mem_cons_self a t)
    have ih2 := ih (fun y hy => hall y (List.mem_cons_of_mem a hy))
    simp [runPhase, ha, ih2]

/-! ## Claim theorems (first batch) -/

/-- C1: every phase executor (extract, validate, analyze, transform) invokes
sub-tasks strictly in list order; when the sub-task `x` after the prefix
`pre` is the first to return a nonzero exit status, exactly the sub-tasks of
`pre` are recorded (each recorded only after a zero exit status), nothing
after `x` is invoked, and the phase reports failure; when every sub-task
returns zero, all are recorded in order and the phase reports success. -/
theorem c1_phase_executor_fail_fast (runner : String → Int) :
    (∀ (pre : List String) (x : String) (post : List String),
        (∀ y ∈ pre, runner (extractCmd y) = 0) → runner (extractCmd x) ≠ 0 →
        extract_phase runner (pre ++ x :: post) =
          ⟨false, pre, (pre ++ [x]).map extractCmd⟩) ∧
    (∀ ts : List String, (∀ y ∈ ts, runner (extractCmd y) = 0) →
        extract_phase runner ts = ⟨true, ts, ts.map extractCmd⟩) ∧
    (∀ (pre : List String) (x : String) (post : List String),
        (∀ y ∈ pre, runner (validateCmd y) = 0) → runner (validateCmd x) ≠ 0 →
        validate_phase runner (pre ++ x :: post) =
          ⟨false, pre, (pre ++ [x]).map validateCmd⟩) ∧
    (∀ ts : List String, (∀ y ∈ ts, runner (validateCmd y) = 0) →
        validate_phase runner ts = ⟨true, ts, ts.map validateCmd⟩) ∧
    (∀ (pre : List String) (x : String) (post : List String),
        (∀ y ∈ pre, runner (analyzeCmd y) = 0) → runner (analyzeCmd x) ≠ 0 →
        analyze_phase runner (pre ++ x :: post) =
          ⟨false, pre, (pre ++ [x]).map analyzeCmd⟩) ∧
    (∀ ts : List String, (∀ y ∈ ts, runner (analyzeCmd y) = 0) →
        analyze_phase runner ts = ⟨true, ts, ts.map analyzeCmd⟩) ∧
    (∀ (pre : List (String × String)) (x : String × String)
        (post : List (String × String)),
        (∀ y ∈ pre, runner (transformCmd y) = 0) → runner (transformCmd x) ≠ 0 →
        transform_phase runner (pre ++ x :: post) =
          ⟨false, pre.map transformDesc, (pre ++ [x]).map transformCmd⟩) ∧
    (∀ ps : List (String × String), (∀ y ∈ ps, runner (transformCmd y) = 0) →
        transform_phase runner ps = ⟨true, ps.map transformDesc, ps.map transformCmd⟩) := by
  refine ⟨?_, ?_, ?_, ?_, ?_, ?_, ?_, ?_⟩
  · intro pre x post h1 h2
    have := runPhase_fail runner extractCmd id pre x post h1 h2
    simpa [extract_phase] using this
  · intro ts h
    have := runPhase_ok runner extractCmd id ts h
    simpa [extract_phase] using this
  · intro pre x post h1 h2
    have := runPhase_fail runner validateCmd id pre x post h1 h2
    simpa [validate_phase] using this
  · intro ts h
    have := runPhase_ok runner validateCmd id ts h
    simpa [validate_phase] using this
  · intro pre x post h1 h2
    have := runPhase_fail runner analyzeCmd id pre x post h1 h2
    simpa [analyze_phase] using this
  · intro ts h
    have := runPhase_ok runner analyzeCmd id ts h
    simpa [analyze_phase] using this
  · intro pre x post h1 h2
    exact runPhase_fail runner transformCmd transformDesc pre x post h1 h2
  · intro ps h
    exact runPhase_ok runner transformCmd transformDesc ps h

/-- Witness for C1: with a runner failing exactly on the second extraction
sub-task, only the first is recorded, only the first two are invoked, and
the phase fails. -/
theorem c1_phase_executor_fail_fast_witness :
    (∀ y ∈ ["source-files"], runnerW (extractCmd y) = 0) ∧
    runnerW (extractCmd "config-files") ≠ 0 ∧
    extract_phase runnerW (["source-files"] ++ "config-files" :: ["data-files"]) =
      ⟨false, ["source-files"], (["source-files"] ++ ["config-files"]).map extractCmd⟩ :=
  ⟨by decide, by decide,
    (c1_phase_executor_fail_fast runnerW).1 ["source-files"] "config-files"
      ["data-files"] (by decide) (by decide)⟩

/-- C5: with zero total artifacts both success rates are `0` regardless of
the selected-artifact sequence and the copied count; the division is
guarded, so it is never evaluated with a zero divisor. -/
theorem c5_zero_total_zero_rates (successful : List String) (copied : Nat)
    (log : Option (List String)) (h : total_artifacts_count log = 0) :
    calculate_metrics successful copied log =
      ⟨0, successful.length, copied, 0, 0⟩ := by
  simp [calculate_metrics, h]

/-- Witness for C5 at a concrete input. -/
theorem c5_zero_total_zero_rates_witness :
    total_artifacts_count none = 0 ∧
    calculate_metrics ["a"] 5 none = ⟨0, 1, 5, 0, 0⟩ :=
  ⟨rfl, c5_zero_total_zero_rates ["a"] 5 none rfl⟩

/-- C6: the stager copies exactly the files whose case-folded,
extension-stripped basename is among the keys of the selected artifacts,
preserving the relative path (the staged entries keep their `relDir`), and
returns the number of files copied; concretely, selection `["a.dat"]`
against a tree `sub/A.DAT`, `sub/other.cfg` copies only `sub/A.DAT` and
returns `1`. -/
theorem c6_artifact_stager :
    (∀ (s : List String) (t : List FSEntry) (e : FSEntry),
        e ∈ stagedEntries s t ↔
          e ∈ t ∧ (s.map artifactKey).contains (fileKey e.name) = true) ∧
    (∀ (s : List String) (t : List FSEntry),
        copy_artifacts s t = (stagedEntries s t).length) ∧
    stagedEntries ["a.dat"] treeC6 = [⟨["sub"], "A.DAT"⟩] ∧
    copy_artifacts ["a.dat"] treeC6 = 1 := by
  refine ⟨?_, fun s t => rfl, by decide, by decide⟩
  intro s t e
  simp [stagedEntries, List.mem_filter]

/-- C9: with a nonzero total, the rates are
`successful/total × 100` and `copied/total × 100`, where
`successful_transforms` is the length of the selected sequence and
`copied_artifacts` the staged count; concretely 10/8/6 gives 80 and 60. -/
theorem c9_success_rates :
    (∀ (s : List String) (c : Nat) (log : Option (List String)),
        total_artifacts_count log ≠ 0 →
        (calculate_metrics s c log).transform_success_rate =
            (s.length : ℚ) / (total_artifacts_count log : ℚ) * 100 ∧
        (calculate_metrics s c log).build_success_rate =
            (c : ℚ) / (total_artifacts_count log : ℚ) * 100 ∧
        (calculate_metrics s c log).successful_transforms = s.length ∧
        (calculate_metrics s c log).copied_artifacts = c) ∧
    calculate_metrics sEight 6 (some logTen) = ⟨10, 8, 6, 80, 60⟩ := by
  constructor
  · intro s c log h
    refine ⟨?_, ?_, rfl, rfl⟩ <;> simp [calculate_metrics, h]
  · have htot : total_artifacts_count (some logTen) = 10 := by decide
    have hlen : sEight.length = 8 := by decide
    simp only [calculate_metrics, htot, hlen, Metrics.mk.injEq]
    norm_num

/-- Witness for C9 at the concrete 10/8/6 input. -/
theorem c9_success_rates_witness :
    total_artifacts_count (some logTen) ≠ 0 ∧
    (calculate_metrics sEight 6 (some logTen)).transform_success_rate =
      (sEight.length : ℚ) / (total_artifacts_count (some logTen) : ℚ) * 100 :=
  ⟨by decide, (c9_success_rates.1 sEight 6 (some logTen) (by decide)).1⟩

/-- C10: the code does not guarantee `successful_transforms ≤
total_artifacts`.  The line `"| report.xml | 0 |"` is selected as a
zero-error record but is not counted as an artifact (it contains none of
`.src`, `.dat`, `.cfg`); on `logMix` the selector yields 2 records while
the total count is 1, so the transform success rate is 200, exceeding 100. -/
theorem c10_success_exceeds_total :
    identify_successful_artifacts (some ["| report.xml | 0 |"]) = ["report.xml"] ∧
    total_artifacts_count (some ["| report.xml | 0 |"]) = 0 ∧
    countsAsArtifact "| report.xml | 0 |" = false ∧
    identify_successful_artifacts (some logMix) = ["report.xml", "a.dat"] ∧
    total_artifacts_count (some logMix) = 1 ∧
    (calculate_metrics (identify_successful_artifacts (some logMix)) 0
        (some logMix)).successful_transforms >
      (calculate_metrics (identify_successful_artifacts (some logMix)) 0
        (some logMix)).total_artifacts ∧
    (calculate_metrics (identify_successful_artifacts (some logMix)) 0
        (some logMix)).transform_success_rate > 100 := by
  refine ⟨by decide, by decide, by decide, by decide, by decide, by decide, ?_⟩
  have hsel : identify_successful_artifacts (some logMix) = ["report.xml", "a.dat"] := by
    decide
  have htot : total_artifacts_count (some logMix) = 1 := by decide
  simp only [calculate_metrics, hsel, htot]
  norm_num

/-! ## Character-class facts -/

lemma sp_space : isPySpace ' ' = true := by decide

lemma sp_pipe : isPySpace '|' = false := by decide

lemma wd_space : isPyWord ' ' = false := by decide

lemma pySpace_cases (c : Char) (h : isPySpace c = true) :
    c = ' ' ∨ c = '\t' ∨ c = '\n' ∨ c = '\r' ∨ c = '\x0b' ∨ c = '\x0c' := by
  simp only [isPySpace, Bool.or_eq_true, beq_iff_eq] at h
  tauto

lemma word_ne_pipe (c : Char) (h : isPyWord c = true) : c ≠ '|' := by
  intro hc; rw [hc] at h; exact absurd h (by decide)

lemma word_ne_dot (c : Char) (h : isPyWord c = true) : c ≠ '.' := by
  intro hc; rw [hc] at h; exact absurd h (by decide)

lemma word_not_space (c : Char) (h : isPyWord c = true) : isPySpace c = false := by
  cases hsp : isPySpace c with
  | false => rfl
  | true =>
    rcases pySpace_cases c hsp with h1 | h1 | h1 | h1 | h1 | h1 <;>
      (rw [h1] at h; exact absurd h (by decide))

lemma word_nonPipe (c : Char) (h : isPyWord c = true) : nonPipe c = true := by
  simpa [nonPipe, bne_iff_ne] using word_ne_pipe c h

lemma digit_ne_pipe (c : Char) (h : c.isDigit = true) : c ≠ '|' := by
  intro hc; rw [hc] at h; exact absurd h (by decide)

lemma digit_ne_dot (c : Char) (h : c.isDigit = true) : c ≠ '.' := by
  intro hc; rw [hc] at h; exact absurd h (by decide)

lemma digit_not_space (c : Char) (h : c.isDigit = true) : isPySpace c = false := by
  cases hsp : isPySpace c with
  | false => rfl
  | true =>
    rcases pySpace_cases c hsp with h1 | h1 | h1 | h1 | h1 | h1 <;>
      (rw [h1] at h; exact absurd h (by decide))

/-! ## Structure of the split enumerations -/

lemma star_join (f : Char → Bool) :
    ∀ cs, ∀ p ∈ starSplits f cs, p.1 ++ p.2 = cs := by
  intro cs
  induction cs with
  | nil =>
    intro p hp
    simp only [starSplits, List.mem_singleton] at hp
    subst hp; rfl
  | cons c t ih =>
    intro p hp
    by_cases hc : f c
    · simp only [starSplits, hc, if_true, List.mem_append, List.mem_map,
        List.mem_singleton] at hp
      rcases hp with ⟨q, hq, hqp⟩ | hp
      · rw [← hqp]; simp [ih q hq]
      · subst hp; rfl
    · simp [starSplits, hc] at hp
      subst hp; rfl

lemma plus_join (f : Char → Bool) :
    ∀ cs, ∀ p ∈ plusSplits f cs, p.1 ++ p.2 = cs := by
  intro cs
  cases cs with
  | nil => intro p hp; simp [plusSplits] at hp
  | cons c t =>
    intro p hp
    by_cases hc : f c
    · simp only [plusSplits, hc, if_true, List.mem_map] at hp
      rcases hp with ⟨q, hq, hqp⟩
      rw [← hqp]; simp [star_join f t q hq]
    · simp [plusSplits, hc] at hp

lemma starSplits_cons_pos (f : Char → Bool) (c : Char) (t : List Char)
    (h : f c = true) :
    starSplits f (c :: t) =
      (starSplits f t).map (fun p => (c :: p.1, p.2)) ++ [([], c :: t)] := by
  simp [starSplits, h]

lemma starSplits_cons_neg (f : Char → Bool) (c : Char) (t : List Char)
    (h : f c = false) : starSplits f (c :: t) = [([], c :: t)] := by
  simp [starSplits, h]

lemma plusSplits_cons_pos (f : Char → Bool) (c : Char) (t : List Char)
    (h : f c = true) :
    plusSplits f (c :: t) = (starSplits f t).map (fun p => (c :: p.1, p.2)) := by
  simp [plusSplits, h]

/-! ## Failure of the matcher where no dot can serve as the extension -/

lemma groupCand_none_of_no_dot (p : List Char × List Char)
    (h : ('.' : Char) ∉ p.2) : groupCand p = none := by
  rcases p with ⟨a, b⟩
  cases b with
  | nil => rfl
  | cons c r =>
    have hc : c ≠ '.' := fun hc => h (by rw [hc]; exact List.mem_cons_self _ _)
    simp [groupCand, hc]

lemma groupAt_none_of_no_dot (cs : List Char) (h : ('.' : Char) ∉ cs) :
    groupAt cs = none := by
  unfold groupAt
  rw [List.findSome?_eq_none_iff]
  intro p hp
  apply groupCand_none_of_no_dot
  intro hd
  exact h ((plus_join nonPipe cs p hp) ▸ List.mem_append_right _ hd)

lemma afterPipe_none_of_no_dot (cs : List Char) (h : ('.' : Char) ∉ cs) :
    afterPipe cs = none := by
  unfold afterPipe
  rw [List.findSome?_eq_none_iff]
  intro p hp
  apply groupAt_none_of_no_dot
  intro hd
  exact h ((star_join isPySpace cs p hp) ▸ List.mem_append_right _ hd)

/-! ## Search failure across a line without a viable start -/

lemma no_pipe_split (P : List Char) (hP : ('|' : Char) ∉ P) (w : List Char) :
    ∀ v, ('|' :: v) <:+ (P ++ w) → ('|' :: v) <:+ w := by
  induction P with
  | nil => intro v h; simpa using h
  | cons c t ih =>
    intro v h
    rw [List.cons_append] at h
    rcases List.suffix_cons_iff.mp h with h1 | h2
    · exfalso
      apply hP
      have hc : c = '|' := by
        have := h1
        injection this with h3 _
        exact h3.symm
      rw [hc]; exact List.mem_cons_self _ _
    · exact ih (fun hm => hP (List.mem_cons_of_mem _ hm)) v h2

lemma search_none (cs : List Char)
    (h : ∀ v, ('|' :: v) <:+ cs → afterPipe v = none) :
    searchZeroError cs = none := by
  induction cs with
  | nil => rfl
  | cons c t ih =>
    have ht : searchZeroError t = none :=
      ih (fun v hv => h v (hv.trans (List.suffix_cons c t)))
    by_cases hc : c = '|'
    · subst hc
      have hap : afterPipe t = none := h t (List.suffix_refl _)
      simp [searchZeroError, matchAt, hap, ht]
    · simp [searchZeroError, matchAt, hc, ht]

/-! ## The matcher on a well-formed record -/

lemma takeWhile_all_append (p : Char → Bool) (l₁ l₂ : List Char)
    (h : ∀ c ∈ l₁, p c = true) :
    (l₁ ++ l₂).takeWhile p = l₁ ++ l₂.takeWhile p := by
  induction l₁ with
  | nil => simp
  | cons a t ih =>
    have ha : p a = true := h a (List.mem_cons_self _ _)
    simp [List.takeWhile_cons, ha, ih (fun c hc => h c (List.mem_cons_of_mem _ hc))]

lemma dropWhile_all_append (p : Char → Bool) (l₁ l₂ : List Char)
    (h : ∀ c ∈ l₁, p c = true) :
    (l₁ ++ l₂).dropWhile p = l₂.dropWhile p := by
  induction l₁ with
  | nil => simp
  | cons a t ih =>
    have ha : p a = true := h a (List.mem_cons_self _ _)
    simp [List.dropWhile_cons, ha, ih (fun c hc => h c (List.mem_cons_of_mem _ hc))]

lemma dot_not_in_recTail (err : List Char) (herr : ∀ c ∈ err, c.isDigit = true) :
    ('.' : Char) ∉ recTail err := by
  intro hmem
  simp only [recTail, List.mem_cons, List.mem_append, List.mem_singleton] at hmem
  rcases hmem with h | h | h | h | h | h
  · exact absurd h (by decide)
  · exact absurd h (by decide)
  · exact absurd h (by decide)
  · exact digit_ne_dot '.' (herr '.' h) rfl
  · exact absurd h (by decide)
  · exact absurd h (by decide)

lemma tailAfterGroup_recTail (err : List Char)
    (herr : ∀ c ∈ err, c.isDigit = true) :
    (tailAfterGroup (recTail err) = true ↔ err = ['0']) := by
  cases err with
  | nil =>
    have : tailAfterGroup (recTail []) = false := by decide
    simp [this]
  | cons d t =>
    have hd : d.isDigit = true := herr d (List.mem_cons_self _ _)
    have hds : isPySpace d = false := digit_not_space d hd
    by_cases hd0 : d = '0'
    · subst hd0
      cases t with
      | nil =>
        have : tailAfterGroup (recTail ['0']) = true := by decide
        simp [this]
      | cons d2 t2 =>
        have hd2 : d2.isDigit = true :=
          herr d2 (List.mem_cons_of_mem _ (List.mem_cons_self _ _))
        have hd2s : isPySpace d2 = false := digit_not_space d2 hd2
        have hd2p : d2 ≠ '|' := digit_ne_pipe d2 hd2
        simp [tailAfterGroup, recTail, List.dropWhile_cons, sp_space, sp_pipe,
          hds, hd2s, hd2p]
    · simp [tailAfterGroup, recTail, List.dropWhile_cons, sp_space, sp_pipe,
        hds, hd0]

lemma groupCand_record (pre ext err : List Char)
    (hext : ext ≠ []) (hw : ∀ c ∈ ext, isPyWord c = true)
    (herr : ∀ c ∈ err, c.isDigit = true) :
    groupCand (pre, '.' :: (ext ++ recTail err)) =
      if err = ['0'] then some (pre ++ '.' :: ext) else none := by
  have htw : (ext ++ recTail err).takeWhile isPyWord = ext := by
    rw [takeWhile_all_append isPyWord ext _ hw]
    have : (recTail err).takeWhile isPyWord = [] := by
      simp [recTail, List.takeWhile_cons, wd_space]
    rw [this, List.append_nil]
  have hdw : (ext ++ recTail err).dropWhile isPyWord = recTail err := by
    rw [dropWhile_all_append isPyWord ext _ hw]
    simp [recTail, List.dropWhile_cons, wd_space]
  have hred : groupCand (pre, '.' :: (ext ++ recTail err)) =
      (if (ext ++ recTail err).takeWhile isPyWord = [] then none
       else if tailAfterGroup ((ext ++ recTail err).dropWhile isPyWord) then
         some (pre ++ '.' :: (ext ++ recTail err).takeWhile isPyWord)
       else none) := rfl
  by_cases h0 : err = ['0']
  · have htg : tailAfterGroup (recTail err) = true :=
      (tailAfterGroup_recTail err herr).mpr h0
    rw [hred, htw, hdw, if_neg hext, htg, if_pos h0]
    simp
  · have htg : tailAfterGroup (recTail err) = false := by
      cases htg : tailAfterGroup (recTail err) with
      | false => rfl
      | true => exact absurd ((tailAfterGroup_recTail err herr).mp htg) h0
    rw [hred, htw, hdw, if_neg hext, htg, if_neg h0]
    simp

lemma findSome_singleton (f : α → Option β) (x : α) :
    ([x] : List α).findSome? f = f x := by
  rw [List.findSome?_cons]
  cases f x <;> simp

lemma findSome_star_dot (b : List Char) (hb : ('.' : Char) ∉ b) :
    ∀ (a : List Char) (pre : List Char),
      (∀ c ∈ a, nonPipe c = true ∧ c ≠ '.') →
      (starSplits nonPipe (a ++ '.' :: b)).findSome?
          (fun p => groupCand (pre ++ p.1, p.2)) =
        groupCand (pre ++ a, '.' :: b) := by
  intro a
  induction a with
  | nil =>
    intro pre _
    have hdot : nonPipe '.' = true := by decide
    rw [List.nil_append, starSplits_cons_pos nonPipe '.' b hdot,
      List.findSome?_append, List.findSome?_map]
    have h1 : (starSplits nonPipe b).findSome?
        ((fun p => groupCand (pre ++ p.1, p.2)) ∘ (fun p => ('.' :: p.1, p.2))) = none := by
      rw [List.findSome?_eq_none_iff]
      intro q hq
      apply groupCand_none_of_no_dot
      intro hd
      exact hb ((star_join nonPipe b q hq) ▸ List.mem_append_right _ hd)
    rw [h1, Option.none_or, findSome_singleton]
  | cons c a ih =>
    intro pre hc
    obtain ⟨hcp, hcd⟩ := hc c (List.mem_cons_self _ _)
    rw [List.cons_append, starSplits_cons_pos nonPipe c _ hcp,
      List.findSome?_append, List.findSome?_map]
    have hfun : ((fun p => groupCand (pre ++ p.1, p.2)) ∘
        (fun p : List Char × List Char => (c :: p.1, p.2))) =
        (fun p => groupCand ((pre ++ [c]) ++ p.1, p.2)) := by
      funext q
      show groupCand (pre ++ c :: q.1, q.2) = groupCand (pre ++ [c] ++ q.1, q.2)
      rw [List.append_cons pre c q.1]
    rw [hfun, ih (pre ++ [c]) (fun y hy => hc y (List.mem_cons_of_mem _ hy))]
    have hfix : (pre ++ [c]) ++ a = pre ++ c :: a := (List.append_cons pre c a).symm
    rw [hfix]
    cases hg : groupCand (pre ++ c :: a, '.' :: b) with
    | some g => rfl
    | none =>
      rw [Option.none_or, findSome_singleton]
      simp [groupCand, hcd]

lemma groupAt_record (stem ext err : List Char) (hstem : stem ≠ [])
    (hsw : ∀ c ∈ stem, isPyWord c = true) (hext : ext ≠ [])
    (hw : ∀ c ∈ ext, isPyWord c = true) (herr : ∀ c ∈ err, c.isDigit = true) :
    groupAt (stem ++ '.' :: (ext ++ recTail err)) =
      if err = ['0'] then some (stem ++ '.' :: ext) else none := by
  have hb : ('.' : Char) ∉ ext ++ recTail err := by
    intro hmem
    rcases List.mem_append.mp hmem with h | h
    · exact word_ne_dot '.' (hw '.' h) rfl
    · exact dot_not_in_recTail err herr h
  cases stem with
  | nil => exact absurd rfl hstem
  | cons s st =>
    have hs := hsw s (List.mem_cons_self _ _)
    have hsp : nonPipe s = true := word_nonPipe s hs
    unfold groupAt
    rw [List.cons_append, plusSplits_cons_pos nonPipe s _ hsp, List.findSome?_map]
    have hfun : (groupCand ∘ (fun p : List Char × List Char => (s :: p.1, p.2))) =
        (fun p => groupCand ([s] ++ p.1, p.2)) := by
      funext q; rfl
    rw [hfun,
      findSome_star_dot (ext ++ recTail err) hb st [s]
        (fun y hy => ⟨word_nonPipe y (hsw y (List.mem_cons_of_mem _ hy)),
          word_ne_dot y (hsw y (List.mem_cons_of_mem _ hy))⟩)]
    exact groupCand_record (s :: st) ext err hext hw herr

lemma groupAt_space_record (stem ext err : List Char) (hstem : stem ≠ [])
    (hsw : ∀ c ∈ stem, isPyWord c = true) (hext : ext ≠ [])
    (hw : ∀ c ∈ ext, isPyWord c = true) (herr : ∀ c ∈ err, c.isDigit = true) :
    groupAt (' ' :: (stem ++ '.' :: (ext ++ recTail err))) =
      if err = ['0'] then some (' ' :: (stem ++ '.' :: ext)) else none := by
  have hb : ('.' : Char) ∉ ext ++ recTail err := by
    intro hmem
    rcases List.mem_append.mp hmem with h | h
    · exact word_ne_dot '.' (hw '.' h) rfl
    · exact dot_not_in_recTail err herr h
  unfold groupAt
  have hsp : nonPipe ' ' = true := by decide
  rw [plusSplits_cons_pos nonPipe ' ' _ hsp, List.findSome?_map]
  have hfun : (groupCand ∘ (fun p : List Char × List Char => (' ' :: p.1, p.2))) =
      (fun p => groupCand ([' '] ++ p.1, p.2)) := by
    funext q; rfl
  rw [hfun,
    findSome_star_dot (ext ++ recTail err) hb stem [' ']
      (fun y hy => ⟨word_nonPipe y (hsw y hy), word_ne_dot y (hsw y hy)⟩)]
  have := groupCand_record (' ' :: stem) ext err hext hw herr
  simpa using this

lemma afterPipe_record (stem ext err : List Char) (hstem : stem ≠ [])
    (hsw : ∀ c ∈ stem, isPyWord c = true) (hext : ext ≠ [])
    (hw : ∀ c ∈ ext, isPyWord c = true) (herr : ∀ c ∈ err, c.isDigit = true) :
    afterPipe (' ' :: (stem ++ '.' :: (ext ++ recTail err))) =
      if err = ['0'] then some (stem ++ '.' :: ext) else none := by
  unfold afterPipe
  have hsp : isPySpace ' ' = true := by decide
  rw [starSplits_cons_pos isPySpace ' ' _ hsp]
  have hstem2 : starSplits isPySpace (stem ++ '.' :: (ext ++ recTail err))
      = [([], stem ++ '.' :: (ext ++ recTail err))] := by
    cases stem with
    | nil => exact absurd rfl hstem
    | cons s st =>
      have hs : isPySpace s = false := word_not_space s (hsw s (List.mem_cons_self _ _))
      rw [List.cons_append, starSplits_cons_neg isPySpace s _ hs]
  rw [hstem2]
  by_cases h0 : err = ['0']
  · subst h0
    have hg := groupAt_record stem ext ['0'] hstem hsw hext hw herr
    rw [if_pos rfl] at hg
    simp [List.findSome?_cons, hg]
  · have hg := groupAt_record stem ext err hstem hsw hext hw herr
    rw [if_neg h0] at hg
    have hg2 := groupAt_space_record stem ext err hstem hsw hext hw herr
    rw [if_neg h0] at hg2
    simp [List.findSome?_cons, hg, hg2, h0]

lemma searchZeroError_cons (c : Char) (t : List Char) :
    searchZeroError (c :: t) =
      match matchAt (c :: t) with
      | some g => some g
      | none => searchZeroError t := rfl

lemma search_record (stem ext err : List Char) (hstem : stem ≠ [])
    (hsw : ∀ c ∈ stem, isPyWord c = true) (hext : ext ≠ [])
    (hw : ∀ c ∈ ext, isPyWord c = true) (herr : ∀ c ∈ err, c.isDigit = true) :
    searchZeroError (renderRec stem ext err) =
      if err = ['0'] then some (stem ++ '.' :: ext) else none := by
  have hap := afterPipe_record stem ext err hstem hsw hext hw herr
  have e2 : matchAt ('|' :: (' ' :: (stem ++ '.' :: (ext ++ recTail err))))
      = afterPipe (' ' :: (stem ++ '.' :: (ext ++ recTail err))) := by
    simp [matchAt]
  by_cases h0 : err = ['0']
  · rw [if_pos h0] at hap
    rw [if_pos h0]
    unfold renderRec
    rw [searchZeroError_cons, e2, hap]
  · rw [if_neg h0] at hap
    rw [if_neg h0]
    have hrest : searchZeroError (' ' :: (stem ++ '.' :: (ext ++ recTail err))) = none := by
      apply search_none
      intro v hv
      have hrw : (' ' : Char) :: (stem ++ '.' :: (ext ++ recTail err))
          = ((' ' :: stem ++ '.' :: ext ++ [' ']) ++
              '|' :: ((' ' :: err ++ [' ']) ++ ['|'])) := by
        simp [recTail]
      rw [hrw] at hv
      have hP : ('|' : Char) ∉ (' ' :: stem ++ '.' :: ext ++ [' ']) := by
        intro hm
        rcases List.mem_cons.mp hm with h | hm
        · exact absurd h (by decide)
        rcases List.mem_append.mp hm with hm2 | h
        · rcases List.mem_append.mp hm2 with h | hm3
          · exact absurd (hsw '|' h) (by decide)
          rcases List.mem_cons.mp hm3 with h | h
          · exact absurd h (by decide)
          · exact absurd (hw '|' h) (by decide)
        · exact absurd (List.mem_singleton.mp h) (by decide)
      have hv2 := no_pipe_split _ hP _ v hv
      rcases List.suffix_cons_iff.mp hv2 with h1 | h2
      · have hveq : v = (' ' :: err ++ [' ']) ++ ['|'] := by
          injection h1 with h1a h1b
        apply afterPipe_none_of_no_dot
        rw [hveq]
        intro hm
        rcases List.mem_append.mp hm with hm | h
        · rcases List.mem_cons.mp hm with h | hm2
          · exact absurd h (by decide)
          rcases List.mem_append.mp hm2 with h | h
          · exact absurd (herr '.' h) (by decide)
          · exact absurd (List.mem_singleton.mp h) (by decide)
        · exact absurd (List.mem_singleton.mp h) (by decide)
      · have hM : ('|' : Char) ∉ (' ' :: err ++ [' ']) := by
          intro hm
          rcases List.mem_cons.mp hm with h | hm2
          · exact absurd h (by decide)
          rcases List.mem_append.mp hm2 with h | h
          · exact absurd (herr '|' h) (by decide)
          · exact absurd (List.mem_singleton.mp h) (by decide)
        have hv3 := no_pipe_split _ hM _ v h2
        have hvnil : v = [] := by
          have hlen := hv3.length_le
          simp only [List.length_cons, List.length_nil, List.length_singleton] at hlen
          exact List.length_eq_zero.mp (by omega)
        rw [hvnil]
        rfl
    unfold renderRec
    rw [searchZeroError_cons, e2, hap]
    exact hrest

/-- Counterexample for C3: on the spec example lines, which have no leading
pipe, the pattern matches nothing — the selector returns `[]`, not
`["a.dat", "c.cfg"]`. -/
theorem c3_counterexample_no_leading_pipe :
    identify_successful_artifacts (some specLinesNoPipe) = [] ∧
    identify_successful_artifacts (some specLinesNoPipe) ≠ ["a.dat", "c.cfg"] := by
  decide

/-- C3 (amended): the success pattern requires the record to carry a leading
pipe.  On a log of well-formed pipe-delimited records the selector returns,
in file order with duplicates permitted, the artifact name of exactly the
records whose error-count field is `0`; concretely, on
`"| a.dat | 0 |"`, `"| b.dat | 2 |"`, `"| c.cfg | 0 |"` it returns
`["a.dat", "c.cfg"]`. -/
theorem c3_amended_selector :
    (∀ recs : List LogRec, (∀ r ∈ recs, recWF r) →
        identify_successful_artifacts (some (recs.map renderLine)) =
          (recs.filter (fun r => r.err == ['0'])).map
            (fun r => (⟨r.stem ++ '.' :: r.ext⟩ : String))) ∧
    identify_successful_artifacts
        (some ["| a.dat | 0 |", "| b.dat | 2 |", "| c.cfg | 0 |"]) =
      ["a.dat", "c.cfg"] := by
  constructor
  · intro recs h
    induction recs with
    | nil => rfl
    | cons r rs ih =>
      obtain ⟨h1, h2, h3, h4, h5⟩ := h r (List.mem_cons_self _ _)
      have hl := search_record r.stem r.ext r.err h1 h2 h3 h4 h5
      have ihh := ih (fun y hy => h y (List.mem_cons_of_mem _ hy))
      have hone : (searchZeroError (renderLine r).data).map String.mk =
          if r.err = ['0'] then some (⟨r.stem ++ '.' :: r.ext⟩ : String)
          else none := by
        show (searchZeroError (renderRec r.stem r.ext r.err)).map String.mk = _
        rw [hl]
        by_cases h0 : r.err = ['0'] <;> simp [h0]
      simp only [identify_successful_artifacts] at ihh ⊢
      rw [List.map_cons, List.filterMap_cons, hone, List.filter_cons]
      by_cases h0 : r.err = ['0']
      · have hbeq : (r.err == ['0']) = true := by
          rw [h0]; exact beq_self_eq_true _
        rw [if_pos h0, hbeq]
        simp only [if_true, List.map_cons, ihh]
      · have hbeq : (r.err == ['0']) = false := by
          cases hbe : r.err == ['0'] with
          | false => rfl
          | true => exact absurd (eq_of_beq hbe) h0
        rw [if_neg h0, hbeq]
        simp [ihh]
  · decide

/-- Witness for the amended C3 at the three concrete records. -/
theorem c3_amended_selector_witness :
    (∀ r ∈ recsW, recWF r) ∧
    identify_successful_artifacts (some (recsW.map renderLine)) =
      ["a.dat", "c.cfg"] := by
  constructor
  · decide
  · have h := c3_amended_selector.1 recsW (by decide)
    rw [h]
    decide

/-- Counterexample for C2: in mode 2 (transform-and-build) the transform
phase is entered although the analyze phase was never entered, let alone
succeeded — the claimed order and gating do not hold for this run. -/
theorem c2_counterexample_mode_two_skips_analyze :
    Phase.transform ∈ (main cfgModeTwo).trace ∧
    Phase.analyze ∉ (main cfgModeTwo).trace ∧
    (main cfgModeTwo).trace =
      [Phase.extract, Phase.validate, Phase.transform, Phase.build] := by
  decide

/-- C2 (amended): when the project directory exists and the run is not
interrupted, the phases entered are exactly the fail-fast prefix of the
selected mode's phase order — modes 1 and 3 attempt
extract/validate/analyze(/transform/build), while mode 2 skips analyze and
goes extract/validate/transform/build; each later phase is entered only if
every earlier phase of that order succeeded, and a failing phase is the last
one entered. -/
theorem c2_amended_phase_order (cfg : RunConfig) :
    (main cfg).trace =
      if cfg.dirExists && !cfg.interrupted then
        takeThroughFailure (phaseOk cfg) (specPhaseOrder cfg.mode)
      else [] := by
  rcases cfg with ⟨de, intr, mode, runner, which, brunner, log, tree⟩
  cases de
  · simp [main]
  · cases intr
    · cases mode <;>
        cases hE : (extract_phase runner fileTypes).ok <;>
        cases hV : (validate_phase runner validateTypes).ok <;>
        cases hA : (analyze_phase runner analysisTypes).ok <;>
        cases hT : (transform_phase runner transformations).ok <;>
        cases hB : (build_phase log tree which brunner).1 <;>
        simp [main, transformBuildBlock, phaseOk, specPhaseOrder,
          takeThroughFailure, hE, hV, hA, hT, hB]
    · simp [main]

/-- Counterexample for C4: a run in which the build phase fails (the build
tool is found and its `clean` step exits nonzero) terminates with exit
status 0, not 1 — the failure is reported as a warning after the metrics
are printed. -/
theorem c4_counterexample_build_failure_exit_zero :
    (main cfgBuildFail).buildResult = some false ∧
    (main cfgBuildFail).exitCode = 0 ∧
    (main cfgBuildFail).printedMetrics.isSome = true := by
  decide

/-- C4 (amended): the exit status is 0 exactly when the directory exists,
no interrupt occurs, and every phase of the selected mode's order other
than the build phase succeeds (a build-phase failure or skip still exits 0,
reported as a warning); otherwise it is 1.  The final metrics report is
printed exactly when the build phase is entered. -/
theorem c4_amended_exit_codes (cfg : RunConfig) :
    ((main cfg).exitCode = 0 ↔
      (cfg.dirExists = true ∧ cfg.interrupted = false ∧ nonBuildPhasesOk cfg)) ∧
    ((main cfg).exitCode = 0 ∨ (main cfg).exitCode = 1) ∧
    ((main cfg).printedMetrics.isSome = true ↔ Phase.build ∈ (main cfg).trace) := by
  rcases cfg with ⟨de, intr, mode, runner, which, brunner, log, tree⟩
  cases de
  · simp [main, nonBuildPhasesOk]
  · cases intr
    · cases mode <;>
        cases hE : (extract_phase runner fileTypes).ok <;>
        cases hV : (validate_phase runner validateTypes).ok <;>
        cases hA : (analyze_phase runner analysisTypes).ok <;>
        cases hT : (transform_phase runner transformations).ok <;>
        simp [main, transformBuildBlock, nonBuildPhasesOk, phaseOk,
          specPhaseOrder, hE, hV, hA, hT]
    · simp [main, nonBuildPhasesOk]

/-- C7: with an unresolvable build tool the Build Invoker invokes no build
step and returns the skip/failure flag; the metrics are computed from the
log and staging alone, identical to what any resolvable tool would yield;
and a run that reaches the build phase still prints exactly those metrics
and exits 0. -/
theorem c7_build_tool_absent_soft_skip :
    (∀ brunner : String → Int, execute_build none brunner = (false, [])) ∧
    (∀ (log : Option (List String)) (tree : List FSEntry)
        (brunner brunner2 : String → Int) (w : Option String),
        (build_phase log tree none brunner).2 = (build_phase log tree w brunner2).2) ∧
    (∀ cfg : RunConfig, cfg.whichBuildTool = none →
        Phase.build ∈ (main cfg).trace →
        (main cfg).printedMetrics =
            some (build_phase cfg.log cfg.tree none cfg.buildRunner).2 ∧
          (main cfg).exitCode = 0 ∧ (main cfg).buildResult = some false) := by
  refine ⟨fun _ => rfl, fun _ _ _ _ _ => rfl, ?_⟩
  intro cfg hw hb
  rcases cfg with ⟨de, intr, mode, runner, which, brunner, log, tree⟩
  obtain rfl : which = none := hw
  revert hb
  cases de
  · simp [main]
  · cases intr
    · cases mode <;>
        cases hE : (extract_phase runner fileTypes).ok <;>
        cases hV : (validate_phase runner validateTypes).ok <;>
        cases hA : (analyze_phase runner analysisTypes).ok <;>
        cases hT : (transform_phase runner transformations).ok <;>
        simp [main, transformBuildBlock, build_phase, execute_build,
          hE, hV, hA, hT]
    · simp [main]

/-- Witness for C7 at a concrete run. -/
theorem c7_build_tool_absent_soft_skip_witness :
    cfgNoTool.whichBuildTool = none ∧
    Phase.build ∈ (main cfgNoTool).trace ∧
    (main cfgNoTool).printedMetrics =
        some (build_phase cfgNoTool.log cfgNoTool.tree none cfgNoTool.buildRunner).2 ∧
      (main cfgNoTool).exitCode = 0 ∧ (main cfgNoTool).buildResult = some false := by
  have h := c7_build_tool_absent_soft_skip.2.2 cfgNoTool rfl (by decide)
  exact ⟨rfl, by decide, h⟩

/-- C8: with the transformation log absent the selector returns the empty
sequence; the stager then copies zero files whatever the source tree holds;
the build-phase metrics are all zero; and a run that reaches the build
phase still completes with exit status 0 and prints those metrics. -/
theorem c8_absent_log_nothing_staged :
    identify_successful_artifacts none = [] ∧
    (∀ tree : List FSEntry, copy_artifacts (identify_successful_artifacts none) tree = 0) ∧
    (∀ (tree : List FSEntry) (w : Option String) (brunner : String → Int),
        (build_phase none tree w brunner).2 = ⟨0, 0, 0, 0, 0⟩) ∧
    (∀ cfg : RunConfig, cfg.log = none → Phase.build ∈ (main cfg).trace →
        (main cfg).exitCode = 0 ∧
        (main cfg).printedMetrics = some ⟨0, 0, 0, 0, 0⟩) := by
  have hstage : ∀ t : List FSEntry, stagedEntries [] t = [] := by
    intro t
    induction t with
    | nil => rfl
    | cons a t ih =>
      simp only [stagedEntries, List.map_nil] at ih ⊢
      rw [List.filter_cons]
      simpa using ih
  have hmet : ∀ (tree : List FSEntry) (w : Option String) (brunner : String → Int),
      (build_phase none tree w brunner).2 = ⟨0, 0, 0, 0, 0⟩ := by
    intro tree w brunner
    simp [build_phase, identify_successful_artifacts, copy_artifacts, hstage,
      calculate_metrics, total_artifacts_count]
  refine ⟨rfl, ?_, hmet, ?_⟩
  · intro tree
    show (stagedEntries [] tree).length = 0
    rw [hstage tree]
    rfl
  · intro cfg hl hb
    rcases cfg with ⟨de, intr, mode, runner, which, brunner, log, tree⟩
    obtain rfl : log = none := hl
    revert hb
    cases de
    · simp [main]
    · cases intr
      · cases mode <;>
          cases hE : (extract_phase runner fileTypes).ok <;>
          cases hV : (validate_phase runner validateTypes).ok <;>
          cases hA : (analyze_phase runner analysisTypes).ok <;>
          cases hT : (transform_phase runner transformations).ok <;>
          simp [main, transformBuildBlock, hE, hV, hA, hT, hmet]
      · simp [main]

/-- Witness for C8 at a concrete run. -/
theorem c8_absent_log_nothing_staged_witness :
    cfgNoLog.log = none ∧
    Phase.build ∈ (main cfgNoLog).trace ∧
    (main cfgNoLog).exitCode = 0 ∧
    (main cfgNoLog).printedMetrics = some ⟨0, 0, 0, 0, 0⟩ := by
  have h := c8_absent_log_nothing_staged.2.2.2 cfgNoLog rfl (by decide)
  exact ⟨rfl, by decide, h⟩

end PipelineOrch
